import Mathlib

/-!
Snake game engine (`main.go`): embedding and verified properties.

The game state of `main.go` is embedded as a record that is passed explicitly
through every operation.

Modelling decisions

* Go's `int` is modelled by `Int`, 64 bits wide.  The only arithmetic of the
  engine is a step of one cell on a board coordinate and `Score++`.
  `Score++` wraps around (`wrapInt64`).  A coordinate is stored only after the
  wall test has found it on the board, where a step of one cell does not wrap.
  On the states of a run the coordinates lie on the 60×40 board and
  `Score + 1 = len(Snake) ≤ 2400` (`Inv`, `Inv_length_le`), far from `2^63`.
* `Direction` stays a `string`, as in the source: a value outside the four
  direction names makes the `switch` of `Update` select no case.
* `math/rand` is external.  `rand.Intn n` is modelled by its contract: it
  panics for `n ≤ 0` and otherwise returns a value of `[0, n)`.  The values
  come from an explicit sequence of raw draws, one per call, reduced modulo
  `n`.  A finite sequence that is used up before the rejection loop of
  `SpawnFruit` has found a free cell is reported as `Fault.exhausted`.
* The fields `Mutex` and `InputBuffer` carry no game data.  `HandleInput`
  is the body of the receive loop, for one key event.
* `Draw` returns the state together with the text it prints.
* `ReadInput` runs over the results of the successive calls of
  `os.Stdin.Read`, each an error or the bytes stored by that call, and yields
  the runes it sends to `InputBuffer`.  A Go `byte` is a `UInt8`.
-/

namespace Snake

/-- Go `type Point struct { X int; Y int }`. -/
structure Point where
  X : Int
  Y : Int
  deriving DecidableEq, Repr

/-- Go `type Game struct`, without `Mutex` and `InputBuffer`. -/
structure Game where
  Width : Int
  Height : Int
  Snake : List Point
  Direction : String
  Fruit : Point
  Score : Int
  GameOver : Bool
  deriving DecidableEq, Repr

/-- Ways in which a call does not return normally. -/
inductive Fault where
  /-- A Go run-time panic (index out of range, `rand.Intn` on `n ≤ 0`). -/
  | panic
  /-- The supplied random draws were used up inside the loop of `SpawnFruit`. -/
  | exhausted
  deriving DecidableEq, Repr

instance : DecidableEq (Except Fault (Game × List Nat))
  | .ok a, .ok b =>
    if h : a = b then isTrue (by rw [h]) else isFalse (by intro e; cases e; exact h rfl)
  | .error a, .error b =>
    if h : a = b then isTrue (by rw [h]) else isFalse (by intro e; cases e; exact h rfl)
  | .ok _, .error _ => isFalse (by intro e; cases e)
  | .error _, .ok _ => isFalse (by intro e; cases e)

/-- The loop `for _, s := range g.Snake { if s.X == p.X && s.Y == p.Y {...} }`
used by `SpawnFruit` and `Update`: does some snake cell have the coordinates of `p`? -/
def overlaps (snake : List Point) (p : Point) : Bool :=
  snake.any (fun s => decide (s.X = p.X) && decide (s.Y = p.Y))

/-- Method `Game.SpawnFruit`: draw `X` from `rand.Intn(g.Width)` and `Y` from
`rand.Intn(g.Height)`, draw again while the candidate overlaps the snake, then
store it in `Fruit`.  Returns the new state and the draws not yet used. -/
def SpawnFruit (g : Game) : List Nat → Except Fault (Game × List Nat)
  | [] => if g.Width ≤ 0 then .error .panic else .error .exhausted
  | [_] =>
    if g.Width ≤ 0 then .error .panic
    else if g.Height ≤ 0 then .error .panic
    else .error .exhausted
  | rx :: ry :: rest =>
    if g.Width ≤ 0 then .error .panic
    else if g.Height ≤ 0 then .error .panic
    else
      let fruit : Point := { X := (rx : Int) % g.Width, Y := (ry : Int) % g.Height }
      if overlaps g.Snake fruit then SpawnFruit g rest
      else .ok ({ g with Fruit := fruit }, rest)

/-- Method `Game.Initialize`: the fixed 60×40 board, direction RIGHT, a snake of one
cell at the centre, the first fruit, score 0, game not over. -/
def Initialize (g : Game) (draws : List Nat) : Except Fault (Game × List Nat) :=
  let g1 : Game := { g with Width := 60, Height := 40, Direction := "RIGHT" }
  let g2 : Game := { g1 with Snake := [{ X := Int.tdiv g1.Width 2, Y := Int.tdiv g1.Height 2 }] }
  match SpawnFruit g2 draws with
  | .error e => .error e
  | .ok (g3, rest) => .ok ({ g3 with Score := 0, GameOver := false }, rest)

/-- The `switch g.Direction` of `Update`: the head moved by one cell; the zero
`Point` of `var newHead Point` when no case is selected. -/
def newHead (direction : String) (head : Point) : Point :=
  if direction = "UP" then { X := head.X, Y := head.Y - 1 }
  else if direction = "DOWN" then { X := head.X, Y := head.Y + 1 }
  else if direction = "LEFT" then { X := head.X - 1, Y := head.Y }
  else if direction = "RIGHT" then { X := head.X + 1, Y := head.Y }
  else { X := 0, Y := 0 }

/-- The wall test of `Update`:
`newHead.X < 0 || newHead.X >= g.Width || newHead.Y < 0 || newHead.Y >= g.Height`. -/
def outside (g : Game) (p : Point) : Bool :=
  decide (p.X < 0) || decide (p.X ≥ g.Width) || decide (p.Y < 0) || decide (p.Y ≥ g.Height)

/-- Go arithmetic on a 64-bit `int`: the result reduced to `[-2^63, 2^63)`. -/
def wrapInt64 (x : Int) : Int :=
  (x + 9223372036854775808) % 18446744073709551616 - 9223372036854775808

/-- Method `Game.Update`: one tick.  `g.Snake[0]` panics on an empty snake;
`g.Score++` wraps around. -/
def Update (g : Game) (draws : List Nat) : Except Fault (Game × List Nat) :=
  match g.Snake with
  | [] => .error .panic
  | head :: _ =>
    let nh := newHead g.Direction head
    if outside g nh then .ok ({ g with GameOver := true }, draws)
    else if overlaps g.Snake nh then .ok ({ g with GameOver := true }, draws)
    else
      let g1 : Game := { g with Snake := nh :: g.Snake }
      if nh.X = g1.Fruit.X ∧ nh.Y = g1.Fruit.Y then
        SpawnFruit { g1 with Score := wrapInt64 (g1.Score + 1) } draws
      else
        .ok ({ g1 with Snake := g1.Snake.dropLast }, draws)

/-- Method `Game.HandleInput`, the body of `for input := range g.InputBuffer` for one
received rune. -/
def HandleInput (g : Game) (input : Char) : Game :=
  if input = 'w' ∨ input = 'W' ∨ input = '↑' then
    if g.Direction ≠ "DOWN" then { g with Direction := "UP" } else g
  else if input = 's' ∨ input = 'S' ∨ input = '↓' then
    if g.Direction ≠ "UP" then { g with Direction := "DOWN" } else g
  else if input = 'a' ∨ input = 'A' ∨ input = '←' then
    if g.Direction ≠ "RIGHT" then { g with Direction := "LEFT" } else g
  else if input = 'd' ∨ input = 'D' ∨ input = '→' then
    if g.Direction ≠ "LEFT" then { g with Direction := "RIGHT" } else g
  else if input = 'q' ∨ input = 'Q' then { g with GameOver := true }
  else g

/-- What the scheduler interleaves: a key event delivered to `HandleInput`, or
a tick of the ticker, which calls `Update`. -/
inductive Event where
  | key (c : Char)
  | tick
  deriving DecidableEq, Repr

/-- Run a sequence of events from `g`, the random draws being consumed in order. -/
def run (g : Game) (draws : List Nat) : List Event → Except Fault (Game × List Nat)
  | [] => .ok (g, draws)
  | Event.key c :: evs => run (HandleInput g c) draws evs
  | Event.tick :: evs =>
    match Update g draws with
    | .error e => .error e
    | .ok (g1, rest) => run g1 rest evs

/-- The states reachable from `Initialize` by an interleaving of key events and
ticks, for some sequence of random draws on which every fruit spawn returns. -/
def Reachable (g : Game) : Prop :=
  ∃ (g0 g1 : Game) (draws rest1 rest : List Nat) (evs : List Event),
    Initialize g0 draws = .ok (g1, rest1) ∧ run g1 rest1 evs = .ok (g, rest)

/-- The zero value `Game{}` on which `main` calls `Initialize`. -/
def zeroGame : Game :=
  { Width := 0, Height := 0, Snake := [], Direction := "", Fruit := { X := 0, Y := 0 },
    Score := 0, GameOver := false }

/-- The candidates `SpawnFruit` examines on a sequence of draws, in order. -/
def candidates (w h : Int) : List Nat → List Point
  | rx :: ry :: rest => { X := (rx : Int) % w, Y := (ry : Int) % h } :: candidates w h rest
  | _ => []

/-- A point of the board `[0,Width) × [0,Height)`. -/
def inBoard (g : Game) (p : Point) : Prop :=
  0 ≤ p.X ∧ p.X < g.Width ∧ 0 ≤ p.Y ∧ p.Y < g.Height

instance (g : Game) (p : Point) : Decidable (inBoard g p) := by
  unfold inBoard; infer_instance

/-- A state right after `Initialize`: snake at the centre of the 60×40 board. -/
def gStart : Game :=
  { Width := 60, Height := 40, Snake := [⟨30, 20⟩], Direction := "RIGHT",
    Fruit := ⟨5, 7⟩, Score := 0, GameOver := false }

/-- A state whose next head `(31,20)` is the fruit. -/
def gFruitAhead : Game :=
  { Width := 60, Height := 40, Snake := [⟨30, 20⟩], Direction := "RIGHT",
    Fruit := ⟨31, 20⟩, Score := 0, GameOver := false }

/-- The state `gFruitAhead` with `Score` at the largest 64-bit `int`. -/
def gMaxScore : Game :=
  { Width := 60, Height := 40, Snake := [⟨30, 20⟩], Direction := "RIGHT",
    Fruit := ⟨31, 20⟩, Score := 9223372036854775807, GameOver := false }

/-- A snake of length 1 at `(Width-1, Height/2)` moving right. -/
def gAtWall : Game :=
  { Width := 60, Height := 40, Snake := [⟨59, 20⟩], Direction := "RIGHT",
    Fruit := ⟨5, 7⟩, Score := 4, GameOver := false }

/-- A snake of length 3 heading right whose direction was turned to `LEFT`,
so that the next head is its second segment. -/
def gTurnedBack : Game :=
  { Width := 60, Height := 40, Snake := [⟨30, 20⟩, ⟨29, 20⟩, ⟨28, 20⟩], Direction := "LEFT",
    Fruit := ⟨5, 7⟩, Score := 2, GameOver := false }

/-- A snake that has eaten one fruit and turned up: the state after
`Initialize`, a tick onto the fruit at `(31,20)`, the key `w` and a second tick. -/
def gGrown : Game :=
  { Width := 60, Height := 40, Snake := [⟨31, 19⟩, ⟨31, 20⟩], Direction := "UP",
    Fruit := ⟨5, 7⟩, Score := 1, GameOver := false }

/-- Follows the spec's words (§4.2), for comparison with `HandleInput`: the
candidate direction a key maps to (W/↑ to UP, S/↓ to DOWN, A/← to LEFT, D/→ to RIGHT). -/
def specCandidate (c : Char) : Option String :=
  if c = 'w' ∨ c = 'W' ∨ c = '↑' then some "UP"
  else if c = 's' ∨ c = 'S' ∨ c = '↓' then some "DOWN"
  else if c = 'a' ∨ c = 'A' ∨ c = '←' then some "LEFT"
  else if c = 'd' ∨ c = 'D' ∨ c = '→' then some "RIGHT"
  else none

/-- Follows the spec's words (§4.2), for comparison with `HandleInput`: the
exact opposite of a direction (UP↔DOWN, LEFT↔RIGHT). -/
def specOpposite (d : String) : Option String :=
  if d = "UP" then some "DOWN"
  else if d = "DOWN" then some "UP"
  else if d = "LEFT" then some "RIGHT"
  else if d = "RIGHT" then some "LEFT"
  else none

/-- The keys `HandleInput` reacts to. -/
def handledKeys : List Char :=
  ['w', 'W', '↑', 's', 'S', '↓', 'a', 'A', '←', 'd', 'D', '→', 'q', 'Q']

/-! ### The renderer -/

/-- The inner loop of `Draw`, `for i, s := range g.Snake`: the glyph of the
first snake element at `(x,y)`, the head glyph at index 0 and the body glyph
later; `cell` is kept when no element is there. -/
def snakeGlyph (x y : Int) : List Point → Nat → String → String
  | [], _, cell => cell
  | s :: rest, i, cell =>
    if s.X = x ∧ s.Y = y then (if i = 0 then "🟢" else "🟩")
    else snakeGlyph x y rest (i + 1) cell

/-- The body of the loop over `x` in `Draw`: the glyph written for one cell. -/
def drawCell (g : Game) (x y : Int) : String :=
  if g.Fruit.X = x ∧ g.Fruit.Y = y then "🍎"
  else snakeGlyph x y g.Snake 0 "  "

/-- Method `Game.Draw`: returns the state, which it only reads, and the text
it prints, the clear-screen sequence followed by the contents of the
`strings.Builder`.  A loop `for i := 0; i < n; i++` is a fold over
`List.range n`. -/
def Draw (g : Game) : Game × String :=
  let out := ""
  let out := out ++ "\r┌"
  let out := (List.range g.Width.toNat).foldl (fun o _ => o ++ "──") out
  let out := out ++ "┐\n"
  let out := (List.range g.Height.toNat).foldl
    (fun o (y : Nat) =>
      let o := o ++ "\r│"
      let o := (List.range g.Width.toNat).foldl (fun o (x : Nat) => o ++ drawCell g x y) o
      o ++ "│\n\r") out
  let out := out ++ "\r└"
  let out := (List.range g.Width.toNat).foldl (fun o _ => o ++ "──") out
  let out := out ++ "┘\n\r"
  let out := out ++ ("\rScore: " ++ toString g.Score ++ "\n\r")
  (g, "\x1b[2J\x1b[H" ++ out)

/-- Concatenation of a list of strings, in order. -/
def joinAll : List String → String
  | [] => ""
  | s :: rest => s ++ joinAll rest

/-- Follows the spec's words (§4.4), for comparison with `drawCell`: fruit
first, then the head glyph when the first snake element on the cell is the
head, then the body glyph when a later element is on the cell, else two blanks. -/
def specCell (g : Game) (x y : Int) : String :=
  if g.Fruit = ⟨x, y⟩ then "🍎"
  else if g.Snake.head? = some ⟨x, y⟩ then "🟢"
  else if (⟨x, y⟩ : Point) ∈ g.Snake.tail then "🟩"
  else "  "

/-- Follows the spec's words (§4.4): the `Width` cells of board row `y`. -/
def specCells (g : Game) (y : Int) : List String :=
  (List.range g.Width.toNat).map (fun (x : Nat) => specCell g x y)

/-- Follows the spec's words (§4.4): the `Height` grid rows, each a left
border, its cells and a right border. -/
def specRows (g : Game) : List String :=
  (List.range g.Height.toNat).map
    (fun (y : Nat) => "\r│" ++ joinAll (specCells g y) ++ "│\n\r")

/-- Follows the spec's words (§4.4): `n` horizontal-bar characters. -/
def specBars (n : Nat) : String := String.mk (List.replicate n '─')

/-- Follows the spec's words (§4.4): top border, grid rows, bottom border, score line. -/
def specFrame (g : Game) : String :=
  "\r┌" ++ specBars (2 * g.Width.toNat) ++ "┐\n" ++ joinAll (specRows g) ++
    "\r└" ++ specBars (2 * g.Width.toNat) ++ "┘\n\r" ++
    "\rScore: " ++ toString g.Score ++ "\n\r"

/-! ### The input decoder -/

/-- The three bytes of `buf := make([]byte, 3)`. -/
structure Buf where
  b0 : UInt8
  b1 : UInt8
  b2 : UInt8
  deriving DecidableEq, Repr

/-- The fresh buffer `make([]byte, 3)`. -/
def zeroBuf : Buf := { b0 := 0, b1 := 0, b2 := 0 }

/-- The result of one call of `os.Stdin.Read`: an error, or the bytes it
stored (possibly none). -/
inductive ReadResult where
  | err
  | ok (bytes : List UInt8)
  deriving DecidableEq, Repr

/-- The effect of `os.Stdin.Read(buf)` on the buffer: at most three bytes are
stored, from index 0. -/
def fill0 (buf : Buf) : List UInt8 → Buf
  | [] => buf
  | [a] => { buf with b0 := a }
  | [a, b] => { buf with b0 := a, b1 := b }
  | a :: b :: c :: _ => { b0 := a, b1 := b, b2 := c }

/-- The effect of `os.Stdin.Read(buf[1:])` on the buffer: at most two bytes
are stored, from index 1. -/
def fill1 (buf : Buf) : List UInt8 → Buf
  | [] => buf
  | [a] => { buf with b1 := a }
  | a :: b :: _ => { buf with b1 := a, b2 := b }

/-- The `if buf[1] == '[' { switch buf[2] {...} }` of `ReadInput`: the arrow
runes sent to `InputBuffer`. -/
def decodeArrow (buf : Buf) : List Char :=
  if buf.b1 = 0x5b then
    if buf.b2 = 0x41 then ['↑']
    else if buf.b2 = 0x42 then ['↓']
    else if buf.b2 = 0x43 then ['→']
    else if buf.b2 = 0x44 then ['←']
    else []
  else []

/-- The loop of `Game.ReadInput` run over the results of the successive calls
of `os.Stdin.Read`: the runes sent to `InputBuffer`, in order.  The loop never
ends; when the results are used up the decoder is blocked in a read. -/
def ReadInput (buf : Buf) : List ReadResult → List Char
  | [] => []
  | .err :: rest => ReadInput buf rest
  | .ok bytes :: rest =>
    if min bytes.length 3 = 0 then ReadInput buf rest
    else
      let buf1 := fill0 buf bytes
      if buf1.b0 = 0x1b then
        if min bytes.length 3 = 1 then
          match rest with
          | [] => []
          | .err :: rest2 => ReadInput buf1 rest2
          | .ok extra :: rest2 =>
            if min extra.length 2 ≠ 2 then ReadInput (fill1 buf1 extra) rest2
            else decodeArrow (fill1 buf1 extra) ++ ReadInput zeroBuf rest2
        else decodeArrow buf1 ++ ReadInput zeroBuf rest
      else Char.ofNat buf1.b0.toNat :: ReadInput buf1 rest

/-- Follows the spec's words (§4.3): the arrow event for the final letter of a
cursor sequence, `A` UP, `B` DOWN, `C` RIGHT, `D` LEFT. -/
def specArrow (final : UInt8) : Option Char :=
  if final = 0x41 then some '↑'
  else if final = 0x42 then some '↓'
  else if final = 0x43 then some '→'
  else if final = 0x44 then some '←'
  else none

/-- The state after `Initialize` and the quit key. -/
def gQuit : Game :=
  { Width := 60, Height := 40, Snake := [⟨30, 20⟩], Direction := "RIGHT",
    Fruit := ⟨5, 7⟩, Score := 0, GameOver := true }

/-- A snake of length 2 that has just moved right onto the first fruit. -/
def gTwo : Game :=
  { Width := 60, Height := 40, Snake := [⟨31, 20⟩, ⟨30, 20⟩], Direction := "RIGHT",
    Fruit := ⟨5, 7⟩, Score := 1, GameOver := false }

/-- A board of two cells: the head on the left one, the fruit on the right one. -/
def gTiny : Game :=
  { Width := 2, Height := 1, Snake := [⟨0, 0⟩], Direction := "RIGHT",
    Fruit := ⟨1, 0⟩, Score := 0, GameOver := false }

/-- The invariant of the running game: what `Initialize` establishes and every
key event and tick keeps. -/
structure Inv (g : Game) : Prop where
  width : g.Width = 60
  height : g.Height = 40
  nonempty : g.Snake ≠ []
  nodup : g.Snake.Nodup
  onBoard : ∀ p ∈ g.Snake, inBoard g p
  fruitOnBoard : inBoard g g.Fruit
  fruitFree : g.Fruit ∉ g.Snake
  direction : g.Direction ∈ ["UP", "DOWN", "LEFT", "RIGHT"]
  score : g.Score + 1 = g.Snake.length

/-! ## Basic facts about the embedded operations -/

theorem point_eq_iff (p q : Point) : (p.X = q.X ∧ p.Y = q.Y) ↔ p = q := by
  cases p; cases q; simp

theorem overlaps_iff (snake : List Point) (p : Point) :
    overlaps snake p = true ↔ p ∈ snake := by
  unfold overlaps
  rw [List.any_eq_true]
  constructor
  · rintro ⟨s, hs, h⟩
    simp only [Bool.and_eq_true, decide_eq_true_eq] at h
    have : s = p := (point_eq_iff s p).mp h
    exact this ▸ hs
  · intro h
    exact ⟨p, h, by simp⟩

theorem overlaps_false_iff (snake : List Point) (p : Point) :
    overlaps snake p = false ↔ p ∉ snake := by
  rw [← overlaps_iff]; simp

theorem outside_false_iff (g : Game) (p : Point) : outside g p = false ↔ inBoard g p := by
  unfold outside inBoard
  simp only [Bool.or_eq_false_iff, decide_eq_false_iff_not, not_lt, ge_iff_le, not_le]
  tauto

theorem outside_iff (g : Game) (p : Point) : outside g p = true ↔ ¬ inBoard g p := by
  rw [← outside_false_iff]; simp

/-- Induction over a list of draws two at a time, as `SpawnFruit` consumes them. -/
theorem draws_induction {P : List Nat → Prop} (h0 : P []) (h1 : ∀ a, P [a])
    (h2 : ∀ a b l, P l → P (a :: b :: l)) : ∀ l, P l
  | [] => h0
  | [a] => h1 a
  | a :: b :: l => h2 a b l (draws_induction h0 h1 h2 l)

theorem candidates_inBoard (g : Game) (hw : 0 < g.Width) (hh : 0 < g.Height) :
    ∀ draws p, p ∈ candidates g.Width g.Height draws → inBoard g p := by
  intro draws
  induction draws using draws_induction with
  | h0 => intro p hp; simp [candidates] at hp
  | h1 a => intro p hp; simp [candidates] at hp
  | h2 a b l ih =>
    intro p hp
    simp only [candidates, List.mem_cons] at hp
    rcases hp with rfl | hp
    · exact ⟨Int.emod_nonneg _ (ne_of_gt hw), Int.emod_lt_of_pos _ hw,
        Int.emod_nonneg _ (ne_of_gt hh), Int.emod_lt_of_pos _ hh⟩
    · exact ih p hp

/-- On a board with positive sides `SpawnFruit` is the search for the first
candidate that is on no snake cell. -/
theorem SpawnFruit_eq_find (g : Game) (hw : 0 < g.Width) (hh : 0 < g.Height) :
    ∀ draws g1 rest, SpawnFruit g draws = .ok (g1, rest) →
      g1 = { g with Fruit := g1.Fruit } ∧
      (candidates g.Width g.Height draws).find? (fun p => !overlaps g.Snake p) = some g1.Fruit := by
  intro draws
  induction draws using draws_induction with
  | h0 => intro g1 rest h; simp [SpawnFruit, not_le.mpr hw] at h
  | h1 a => intro g1 rest h; simp [SpawnFruit, not_le.mpr hw, not_le.mpr hh] at h
  | h2 a b l ih =>
    intro g1 rest h
    simp only [SpawnFruit, not_le.mpr hw, not_le.mpr hh, if_false] at h
    by_cases ho : overlaps g.Snake { X := (a : Int) % g.Width, Y := (b : Int) % g.Height } = true
    · rw [if_pos ho] at h
      obtain ⟨e1, e2⟩ := ih g1 rest h
      refine ⟨e1, ?_⟩
      simp only [candidates, List.find?_cons, ho, Bool.not_true]
      exact e2
    · rw [if_neg ho] at h
      simp only [Except.ok.injEq, Prod.mk.injEq] at h
      obtain ⟨rfl, -⟩ := h
      refine ⟨rfl, ?_⟩
      simp only [candidates, List.find?_cons]
      simp [ho]

/-- On a board with positive sides `SpawnFruit` returns as soon as the draws
hold a candidate on a free cell. -/
theorem SpawnFruit_returns (g : Game) (hw : 0 < g.Width) (hh : 0 < g.Height) :
    ∀ draws, (∃ p ∈ candidates g.Width g.Height draws, p ∉ g.Snake) →
      ∃ g1 rest, SpawnFruit g draws = .ok (g1, rest) := by
  intro draws
  induction draws using draws_induction with
  | h0 => rintro ⟨p, hp, -⟩; simp [candidates] at hp
  | h1 a => rintro ⟨p, hp, -⟩; simp [candidates] at hp
  | h2 a b l ih =>
    rintro ⟨p, hp, hfree⟩
    simp only [SpawnFruit, not_le.mpr hw, not_le.mpr hh, if_false]
    by_cases ho : overlaps g.Snake { X := (a : Int) % g.Width, Y := (b : Int) % g.Height } = true
    · rw [if_pos ho]
      simp only [candidates, List.mem_cons] at hp
      rcases hp with rfl | hp
      · exact absurd ((overlaps_iff _ _).mp ho) hfree
      · exact ih ⟨p, hp, hfree⟩
    · rw [if_neg ho]
      exact ⟨_, _, rfl⟩

/-- Inside the range of a 64-bit `int` nothing wraps. -/
theorem wrapInt64_eq (x : Int) (hlo : -9223372036854775808 ≤ x)
    (hhi : x < 9223372036854775808) : wrapInt64 x = x := by
  unfold wrapInt64
  omega

/-- The first branch of `Update`: the new head is off the board. -/
theorem Update_wall (g : Game) (head : Point) (tl : List Point) (draws : List Nat)
    (hs : g.Snake = head :: tl) (h : ¬ inBoard g (newHead g.Direction head)) :
    Update g draws = .ok ({ g with GameOver := true }, draws) := by
  have ho := (outside_iff g _).mpr h
  obtain ⟨W, H, S, D, F, Sc, GO⟩ := g
  simp only at hs ho
  subst hs
  simp only [Update, ho, if_true]

/-- The second branch of `Update`: the new head is on a snake cell. -/
theorem Update_self (g : Game) (head : Point) (tl : List Point) (draws : List Nat)
    (hs : g.Snake = head :: tl) (hb : inBoard g (newHead g.Direction head))
    (h : newHead g.Direction head ∈ g.Snake) :
    Update g draws = .ok ({ g with GameOver := true }, draws) := by
  have ho := (outside_false_iff g _).mpr hb
  have hov := (overlaps_iff _ _).mpr h
  obtain ⟨W, H, S, D, F, Sc, GO⟩ := g
  simp only at hs ho hov
  subst hs
  simp only [Update, ho, hov, if_true, Bool.false_eq_true, if_false]

/-- The plain move of `Update`: the new head is on a free cell that is not the fruit. -/
theorem Update_move (g : Game) (head : Point) (tl : List Point) (draws : List Nat)
    (hs : g.Snake = head :: tl) (hb : inBoard g (newHead g.Direction head))
    (hfree : newHead g.Direction head ∉ g.Snake) (hf : newHead g.Direction head ≠ g.Fruit) :
    Update g draws =
      .ok ({ g with Snake := newHead g.Direction head :: g.Snake.dropLast }, draws) := by
  have ho := (outside_false_iff g _).mpr hb
  have hov := (overlaps_false_iff _ _).mpr hfree
  have hf2 := mt (point_eq_iff _ _).mp hf
  obtain ⟨W, H, S, D, F, Sc, GO⟩ := g
  simp only at hs ho hov hf2
  subst hs
  simp only [Update, ho, hov, Bool.false_eq_true, if_false, hf2, List.dropLast_cons₂]

/-- The growing move of `Update`: the new head is on the fruit, a free cell. -/
theorem Update_grow (g : Game) (head : Point) (tl : List Point) (draws : List Nat)
    (hs : g.Snake = head :: tl) (hb : inBoard g (newHead g.Direction head))
    (hfree : newHead g.Direction head ∉ g.Snake) (hf : newHead g.Direction head = g.Fruit) :
    Update g draws =
      SpawnFruit { g with Snake := newHead g.Direction head :: g.Snake,
                          Score := wrapInt64 (g.Score + 1) } draws := by
  have ho := (outside_false_iff g _).mpr hb
  have hov := (overlaps_false_iff _ _).mpr hfree
  have hf2 := (point_eq_iff _ _).mpr hf
  obtain ⟨W, H, S, D, F, Sc, GO⟩ := g
  simp only at hs ho hov hf2
  subst hs
  simp only [Update, ho, hov, Bool.false_eq_true, if_false, hf2, and_self, if_true]

/-- What a growing move returns, and that it returns when a free candidate is drawn. -/
theorem Update_grow_spec (g : Game) (head : Point) (tl : List Point) (draws : List Nat)
    (hs : g.Snake = head :: tl) (hb : inBoard g (newHead g.Direction head))
    (hfree : newHead g.Direction head ∉ g.Snake) (hf : newHead g.Direction head = g.Fruit) :
    (∀ g1 rest, Update g draws = .ok (g1, rest) →
      g1 = { g with Snake := newHead g.Direction head :: g.Snake,
                    Score := wrapInt64 (g.Score + 1), Fruit := g1.Fruit } ∧
      (candidates g.Width g.Height draws).find?
        (fun p => !overlaps (newHead g.Direction head :: g.Snake) p) = some g1.Fruit) ∧
    ((∃ p ∈ candidates g.Width g.Height draws, p ∉ newHead g.Direction head :: g.Snake) →
      ∃ g1 rest, Update g draws = .ok (g1, rest)) := by
  have hw : 0 < g.Width := lt_of_le_of_lt hb.1 hb.2.1
  have hh : 0 < g.Height := lt_of_le_of_lt hb.2.2.1 hb.2.2.2
  rw [Update_grow g head tl draws hs hb hfree hf]
  generalize hg : ({ g with Snake := newHead g.Direction head :: g.Snake,
                            Score := wrapInt64 (g.Score + 1) } : Game) = g2
  have e1 : g2.Width = g.Width := by rw [← hg]
  have e2 : g2.Height = g.Height := by rw [← hg]
  have e3 : g2.Snake = newHead g.Direction head :: g.Snake := by rw [← hg]
  constructor
  · intro g1 rest h
    obtain ⟨a, b⟩ := SpawnFruit_eq_find g2 (e1 ▸ hw) (e2 ▸ hh) draws g1 rest h
    rw [e1, e2, e3] at b
    refine ⟨?_, b⟩
    rw [a, ← hg]
  · intro h
    exact SpawnFruit_returns g2 (e1 ▸ hw) (e2 ▸ hh) draws (by rw [e1, e2, e3]; exact h)

/-! ## The tick: growth, movement, collisions -/

/-- C3 (movement step of `Update`): the new head is the old head moved one cell
in `Direction` (UP: y-1, DOWN: y+1, LEFT: x-1, RIGHT: x+1).  When it is inside
the board and on no snake cell: if it is not the fruit, `Update` returns the
state with `Snake` replaced by the new head followed by the old snake without
its last element, everything else and the draws unchanged; if it is the fruit,
every result has the new head followed by the whole old snake, and `Update`
returns once a candidate off the grown snake is drawn.  From snake `[(30,20)]`
on the 60×40 board, direction RIGHT, fruit not at `(31,20)`, one `Update` gives
snake `[(31,20)]`. -/
theorem movement_step (g : Game) (head : Point) (tl : List Point) (draws : List Nat)
    (hs : g.Snake = head :: tl) :
    (newHead "UP" head = ⟨head.X, head.Y - 1⟩ ∧ newHead "DOWN" head = ⟨head.X, head.Y + 1⟩ ∧
      newHead "LEFT" head = ⟨head.X - 1, head.Y⟩ ∧
      newHead "RIGHT" head = ⟨head.X + 1, head.Y⟩) ∧
    (inBoard g (newHead g.Direction head) → newHead g.Direction head ∉ g.Snake →
      (newHead g.Direction head ≠ g.Fruit →
        Update g draws =
          .ok ({ g with Snake := newHead g.Direction head :: g.Snake.dropLast }, draws)) ∧
      (newHead g.Direction head = g.Fruit →
        (∀ g1 rest, Update g draws = .ok (g1, rest) →
          g1.Snake = newHead g.Direction head :: g.Snake) ∧
        ((∃ p ∈ candidates g.Width g.Height draws, p ∉ newHead g.Direction head :: g.Snake) →
          ∃ g1 rest, Update g draws = .ok (g1, rest)))) ∧
    (g.Width = 60 → g.Height = 40 → g.Snake = [⟨30, 20⟩] → g.Direction = "RIGHT" →
      g.Fruit ≠ ⟨31, 20⟩ → Update g draws = .ok ({ g with Snake := [⟨31, 20⟩] }, draws)) := by
  refine ⟨⟨by simp [newHead], by simp [newHead], by simp [newHead], by simp [newHead]⟩, ?_, ?_⟩
  · intro hb hfree
    refine ⟨fun hf => Update_move g head tl draws hs hb hfree hf, fun hf => ?_⟩
    obtain ⟨h1, h2⟩ := Update_grow_spec g head tl draws hs hb hfree hf
    refine ⟨?_, h2⟩
    intro g1 rest h
    obtain ⟨e, -⟩ := h1 g1 rest h
    rw [e]
  · intro hw hh hsn hd hf
    have hnh : newHead g.Direction ⟨30, 20⟩ = ⟨31, 20⟩ := by rw [hd]; decide
    have hm := Update_move g ⟨30, 20⟩ [] draws hsn
      (by rw [hnh]; simp [inBoard, hw, hh]) (by rw [hnh, hsn]; decide) (by rw [hnh]; exact hf.symm)
    rw [hm, hnh, hsn]
    rfl

theorem movement_step_witness :
    Update gStart [] = .ok ({ gStart with Snake := [⟨31, 20⟩] }, []) :=
  (movement_step gStart ⟨30, 20⟩ [] [] rfl).2.2 rfl rfl rfl rfl (by decide)

/-- C4 (wall collision): for a state whose new head lies outside
`[0,Width) × [0,Height)`, `Update` returns the same state with `GameOver` set
to true, so `Snake`, `Fruit`, `Score` and `Direction` are unchanged, and uses
no draw.  A snake of length 1 at `(Width-1, Height/2)` moving RIGHT ends with
`GameOver = true` and the same `Score`. -/
theorem wall_collision (g : Game) (head : Point) (tl : List Point) (draws : List Nat)
    (hs : g.Snake = head :: tl) :
    (¬ inBoard g (newHead g.Direction head) →
      Update g draws = .ok ({ g with GameOver := true }, draws)) ∧
    (g.Snake = [⟨g.Width - 1, Int.tdiv g.Height 2⟩] → g.Direction = "RIGHT" →
      ∃ g1, Update g draws = .ok (g1, draws) ∧ g1.GameOver = true ∧ g1.Score = g.Score) := by
  refine ⟨fun h => Update_wall g head tl draws hs h, ?_⟩
  intro hsn hd
  refine ⟨_, Update_wall g _ [] draws hsn ?_, rfl, rfl⟩
  rw [hd]
  simp [inBoard, newHead]

theorem wall_collision_witness :
    Update gAtWall [] = .ok ({ gAtWall with GameOver := true }, []) ∧
    ∃ g1, Update gAtWall [] = .ok (g1, []) ∧ g1.GameOver = true ∧ g1.Score = gAtWall.Score :=
  ⟨(wall_collision gAtWall ⟨59, 20⟩ [] [] rfl).1 (by decide),
   (wall_collision gAtWall ⟨59, 20⟩ [] [] rfl).2 (by decide) rfl⟩

/-- C5 (self collision): for a state whose new head is inside the board and
equals a cell of the current snake, the current last cell included, `Update`
returns the same state with `GameOver` set to true, so `Snake`, `Fruit`,
`Score` and `Direction` are unchanged.  In particular a snake of length at
least 3 whose head moves onto its second segment is game over on that `Update`. -/
theorem self_collision (g : Game) (head : Point) (tl : List Point) (draws : List Nat)
    (hs : g.Snake = head :: tl) (hb : inBoard g (newHead g.Direction head)) :
    (newHead g.Direction head ∈ g.Snake →
      Update g draws = .ok ({ g with GameOver := true }, draws)) ∧
    (g.Snake.getLast? = some (newHead g.Direction head) →
      Update g draws = .ok ({ g with GameOver := true }, draws)) ∧
    (∀ second third more, g.Snake = head :: second :: third :: more →
      newHead g.Direction head = second →
      Update g draws = .ok ({ g with GameOver := true }, draws)) := by
  refine ⟨fun h => Update_self g head tl draws hs hb h, ?_, ?_⟩
  · intro h
    exact Update_self g head tl draws hs hb (List.mem_of_getLast?_eq_some h)
  · intro second third more hsn h
    refine Update_self g head tl draws hs hb ?_
    rw [hsn, h]
    simp

theorem self_collision_witness :
    Update gTurnedBack [] = .ok ({ gTurnedBack with GameOver := true }, []) :=
  (self_collision gTurnedBack ⟨30, 20⟩ [⟨29, 20⟩, ⟨28, 20⟩] [] rfl (by decide)).2.2
    ⟨29, 20⟩ ⟨28, 20⟩ [] rfl (by decide)

/-! ## Fruit spawning and initialisation -/

theorem free_pred_eq (snake : List Point) :
    (fun p => !overlaps snake p) = (fun p => decide (p ∉ snake)) := by
  funext p
  by_cases h : p ∈ snake
  · simp [h, (overlaps_iff snake p).mpr h]
  · simp [h, (overlaps_false_iff snake p).mpr h]

/-- C7 (`SpawnFruit` postcondition): on a board with positive `Width` and
`Height`, whenever `SpawnFruit` returns, the new `Fruit` is the first drawn
candidate that is on no snake cell, it lies in `[0,Width) × [0,Height)`, it is
no point of `Snake`, and `Snake`, `Score`, `Direction`, `GameOver`, `Width` and
`Height` are unchanged; and `SpawnFruit` returns whenever the draws hold a
candidate on a free cell. -/
theorem SpawnFruit_post (g : Game) (draws : List Nat) (hw : 0 < g.Width) (hh : 0 < g.Height) :
    (∀ g1 rest, SpawnFruit g draws = .ok (g1, rest) →
      (candidates g.Width g.Height draws).find? (fun p => decide (p ∉ g.Snake)) = some g1.Fruit ∧
      inBoard g g1.Fruit ∧ g1.Fruit ∉ g.Snake ∧
      g1.Snake = g.Snake ∧ g1.Score = g.Score ∧ g1.Direction = g.Direction ∧
      g1.GameOver = g.GameOver ∧ g1.Width = g.Width ∧ g1.Height = g.Height) ∧
    ((∃ p ∈ candidates g.Width g.Height draws, p ∉ g.Snake) →
      ∃ g1 rest, SpawnFruit g draws = .ok (g1, rest)) := by
  refine ⟨?_, SpawnFruit_returns g hw hh draws⟩
  intro g1 rest h
  obtain ⟨e, hfind⟩ := SpawnFruit_eq_find g hw hh draws g1 rest h
  rw [free_pred_eq] at hfind
  have hmem := List.mem_of_find?_eq_some hfind
  have hfree := List.find?_some hfind
  refine ⟨hfind, candidates_inBoard g hw hh draws _ hmem, of_decide_eq_true hfree, ?_⟩
  rw [e]
  exact ⟨rfl, rfl, rfl, rfl, rfl, rfl⟩

theorem SpawnFruit_post_witness :
    ∃ g1 rest, SpawnFruit gStart [30, 20, 65, 47] = .ok (g1, rest) :=
  (SpawnFruit_post gStart [30, 20, 65, 47] (by decide) (by decide)).2
    ⟨⟨5, 7⟩, by decide, by decide⟩

/-- What `Initialize` returns, and that it returns when a free candidate is drawn. -/
theorem Initialize_spec (g0 : Game) (draws : List Nat) :
    (∀ g rest, Initialize g0 draws = .ok (g, rest) →
      g.Width = 60 ∧ g.Height = 40 ∧ g.Snake = [⟨30, 20⟩] ∧ g.Direction = "RIGHT" ∧
      g.Score = 0 ∧ g.GameOver = false ∧ inBoard g g.Fruit ∧ g.Fruit ≠ ⟨30, 20⟩) ∧
    ((∃ p ∈ candidates 60 40 draws, p ≠ ⟨30, 20⟩) →
      ∃ g rest, Initialize g0 draws = .ok (g, rest)) := by
  generalize hg : ({ g0 with Width := 60, Height := 40, Direction := "RIGHT",
                             Snake := [⟨30, 20⟩] } : Game) = g2
  have hI : Initialize g0 draws =
      match SpawnFruit g2 draws with
      | .error e => .error e
      | .ok (g3, rest) => .ok ({ g3 with Score := 0, GameOver := false }, rest) := by
    rw [← hg]; rfl
  have e1 : g2.Width = 60 := by rw [← hg]
  have e2 : g2.Height = 40 := by rw [← hg]
  have hw : (0 : Int) < g2.Width := by rw [e1]; decide
  have hh : (0 : Int) < g2.Height := by rw [e2]; decide
  have e3 : g2.Snake = [⟨30, 20⟩] := by rw [← hg]
  have e4 : g2.Direction = "RIGHT" := by rw [← hg]
  constructor
  · intro g rest h
    rw [hI] at h
    cases hsp : SpawnFruit g2 draws with
    | error e => rw [hsp] at h; simp at h
    | ok r =>
      obtain ⟨g3, rest3⟩ := r
      rw [hsp] at h
      simp only [Except.ok.injEq, Prod.mk.injEq] at h
      obtain ⟨rfl, -⟩ := h
      obtain ⟨eq3, hfind⟩ := SpawnFruit_eq_find g2 hw hh draws g3 rest3 hsp
      rw [free_pred_eq] at hfind
      have hmem := candidates_inBoard g2 hw hh draws _ (List.mem_of_find?_eq_some hfind)
      have hfree0 := List.find?_some hfind
      have hfree : g3.Fruit ∉ g2.Snake := of_decide_eq_true hfree0
      have w3 : g3.Width = 60 := by rw [eq3]; exact e1
      have h3 : g3.Height = 40 := by rw [eq3]; exact e2
      have s3 : g3.Snake = [⟨30, 20⟩] := by rw [eq3]; exact e3
      have d3 : g3.Direction = "RIGHT" := by rw [eq3]; exact e4
      refine ⟨w3, h3, s3, d3, rfl, rfl, ?_, ?_⟩
      · unfold inBoard at hmem ⊢
        simpa [w3, h3, e1, e2] using hmem
      · intro hc
        apply hfree
        rw [e3, hc]
        simp
  · rintro ⟨p, hp, hne⟩
    rw [hI]
    obtain ⟨g3, rest3, hsp⟩ := SpawnFruit_returns g2 hw hh draws
      ⟨p, by rw [e1, e2]; exact hp, by rw [e3]; simpa using hne⟩
    rw [hsp]
    exact ⟨_, _, rfl⟩

/-- C9 (`Initialize` postcondition): whenever `Initialize` returns, the state
has `Width` 60, `Height` 40, `Snake` equal to the single cell `(30,20)`,
`Direction` RIGHT, `Score` 0, `GameOver` false, and `Fruit` inside the board and
different from `(30,20)`; and `Initialize` returns whenever the draws hold a
candidate other than `(30,20)`. -/
theorem Initialize_post (g0 : Game) (draws : List Nat) :
    (∀ g rest, Initialize g0 draws = .ok (g, rest) →
      g.Width = 60 ∧ g.Height = 40 ∧ g.Snake = [⟨30, 20⟩] ∧ g.Direction = "RIGHT" ∧
      g.Score = 0 ∧ g.GameOver = false ∧ inBoard g g.Fruit ∧ g.Fruit ≠ ⟨30, 20⟩) ∧
    ((∃ p ∈ candidates 60 40 draws, p ≠ ⟨30, 20⟩) →
      ∃ g rest, Initialize g0 draws = .ok (g, rest)) :=
  Initialize_spec g0 draws

theorem Initialize_post_witness :
    ∃ g rest, Initialize zeroGame [30, 20, 65, 47] = .ok (g, rest) :=
  (Initialize_post zeroGame [30, 20, 65, 47]).2 ⟨⟨5, 7⟩, by decide, by decide⟩

/-! ## The direction controller -/

/-- C6 (reversal rejection): for a current direction among UP, DOWN, LEFT,
RIGHT and a key that maps to a candidate direction, the direction after
`HandleInput` is the current one when the candidate is its exact opposite and
the candidate otherwise. -/
theorem reversal_rejection (g : Game) (c : Char) (cand : String)
    (hd : g.Direction ∈ ["UP", "DOWN", "LEFT", "RIGHT"]) (hc : specCandidate c = some cand) :
    (HandleInput g c).Direction =
      if specOpposite g.Direction = some cand then g.Direction else cand := by
  simp only [List.mem_cons, List.mem_singleton, List.not_mem_nil, or_false] at hd
  unfold specCandidate at hc
  unfold HandleInput
  split_ifs at hc with h1 h2 h3 h4
  all_goals
    simp only [Option.some.injEq] at hc
    subst hc
    rcases hd with hd | hd | hd | hd <;> simp [*, specOpposite]

theorem reversal_rejection_witness :
    (HandleInput gStart 'a').Direction = "RIGHT" ∧ (HandleInput gStart 'w').Direction = "UP" :=
  ⟨reversal_rejection gStart 'a' "LEFT" (by decide) (by decide),
   reversal_rejection gStart 'w' "UP" (by decide) (by decide)⟩

/-- C10 (quit and ignored keys): processing `q` or `Q` sets `GameOver` to true
and leaves everything else unchanged; processing a key other than
w/W/s/S/a/A/d/D, the four arrows and q/Q leaves the whole state unchanged; and
no key event changes `Snake`, `Fruit`, `Score`, `Width` or `Height`. -/
theorem quit_and_ignored (g : Game) (c : Char) :
    ((c = 'q' ∨ c = 'Q') → HandleInput g c = { g with GameOver := true }) ∧
    (c ∉ handledKeys → HandleInput g c = g) ∧
    ((HandleInput g c).Snake = g.Snake ∧ (HandleInput g c).Fruit = g.Fruit ∧
      (HandleInput g c).Score = g.Score ∧ (HandleInput g c).Width = g.Width ∧
      (HandleInput g c).Height = g.Height) := by
  refine ⟨?_, ?_, ?_⟩
  · rintro (rfl | rfl) <;> simp [HandleInput]
  · intro h
    simp only [handledKeys, List.mem_cons, List.mem_singleton, List.not_mem_nil, or_false,
      not_or] at h
    obtain ⟨a1, a2, a3, a4, a5, a6, a7, a8, a9, a10, a11, a12, a13, a14⟩ := h
    simp [HandleInput, a1, a2, a3, a4, a5, a6, a7, a8, a9, a10, a11, a12, a13, a14]
  · unfold HandleInput
    split_ifs <;> exact ⟨rfl, rfl, rfl, rfl, rfl⟩

theorem quit_and_ignored_witness :
    HandleInput gStart 'q' = { gStart with GameOver := true } ∧ HandleInput gStart 'x' = gStart :=
  ⟨(quit_and_ignored gStart 'q').1 (Or.inl rfl), (quit_and_ignored gStart 'x').2.1 (by decide)⟩

/-! ## Invariants of the reachable states -/

theorem Inv_Initialize (g0 g : Game) (draws rest : List Nat)
    (h : Initialize g0 draws = .ok (g, rest)) : Inv g := by
  obtain ⟨hw, hh, hs, hd, hsc, -, hfb, hfne⟩ := (Initialize_spec g0 draws).1 g rest h
  refine ⟨hw, hh, ?_, ?_, ?_, hfb, ?_, ?_, ?_⟩
  · rw [hs]; simp
  · rw [hs]; simp
  · intro p hp
    rw [hs, List.mem_singleton] at hp
    subst hp
    simp [inBoard, hw, hh]
  · rw [hs, List.mem_singleton]; exact hfne
  · rw [hd]; simp
  · rw [hs, hsc]; rfl

theorem Inv_HandleInput (g : Game) (c : Char) (h : Inv g) : Inv (HandleInput g c) := by
  obtain ⟨hw, hh, hne, hnd, hob, hfb, hff, hd, hsc⟩ := h
  unfold HandleInput
  split_ifs <;>
    exact ⟨hw, hh, hne, hnd, hob, hfb, hff, by first | exact hd | simp, hsc⟩

/-- Pairwise distinct points of a `w × h` board are at most `w * h` many. -/
theorem length_le_of_nodup_on_board (w h : Nat) (l : List Point) (hnd : l.Nodup)
    (hb : ∀ p ∈ l, 0 ≤ p.X ∧ p.X < w ∧ 0 ≤ p.Y ∧ p.Y < h) : l.length ≤ w * h := by
  have hinj : ∀ p ∈ l, ∀ q ∈ l,
      (p.X.toNat, p.Y.toNat) = (q.X.toNat, q.Y.toNat) → p = q := by
    intro p hp q hq e
    obtain ⟨px0, -, py0, -⟩ := hb p hp
    obtain ⟨qx0, -, qy0, -⟩ := hb q hq
    simp only [Prod.mk.injEq] at e
    apply (point_eq_iff p q).mp
    constructor
    · rw [← Int.toNat_of_nonneg px0, ← Int.toNat_of_nonneg qx0, e.1]
    · rw [← Int.toNat_of_nonneg py0, ← Int.toNat_of_nonneg qy0, e.2]
  have hnd2 : (l.map (fun p => (p.X.toNat, p.Y.toNat))).Nodup :=
    List.Nodup.map_on (fun p hp q hq e => hinj p hp q hq e) hnd
  have hsub : (l.map (fun p => (p.X.toNat, p.Y.toNat))).toFinset ⊆
      Finset.range w ×ˢ Finset.range h := by
    intro x hx
    rw [List.mem_toFinset, List.mem_map] at hx
    obtain ⟨p, hp, hpx⟩ := hx
    obtain ⟨px0, px1, py0, py1⟩ := hb p hp
    rw [← hpx, Finset.mem_product, Finset.mem_range, Finset.mem_range]
    constructor <;> omega
  have hcard := Finset.card_le_card hsub
  rw [List.toFinset_card_of_nodup hnd2, List.length_map, Finset.card_product,
    Finset.card_range, Finset.card_range] at hcard
  exact hcard

/-- On the states satisfying the invariant the snake has at most `60 * 40`
cells, so `Score` and every coordinate stay far below the range of a Go `int`. -/
theorem Inv_length_le (g : Game) (h : Inv g) : g.Snake.length ≤ 2400 := by
  have hb : ∀ p ∈ g.Snake, 0 ≤ p.X ∧ p.X < (60 : Nat) ∧ 0 ≤ p.Y ∧ p.Y < (40 : Nat) := by
    intro p hp
    have := h.onBoard p hp
    unfold inBoard at this
    rw [h.width, h.height] at this
    exact this
  exact length_le_of_nodup_on_board 60 40 g.Snake h.nodup hb

theorem Inv_Update (g g1 : Game) (draws rest : List Nat) (h : Inv g)
    (hu : Update g draws = .ok (g1, rest)) : Inv g1 := by
  have hlen := Inv_length_le g h
  obtain ⟨hw, hh, hne, hnd, hob, hfb, hff, hd, hsc⟩ := h
  obtain ⟨head, tl, hs⟩ := List.exists_cons_of_ne_nil hne
  by_cases hb : inBoard g (newHead g.Direction head)
  · by_cases hfree : newHead g.Direction head ∉ g.Snake
    · have hnd2 : (newHead g.Direction head :: g.Snake).Nodup := List.nodup_cons.mpr ⟨hfree, hnd⟩
      by_cases hf : newHead g.Direction head = g.Fruit
      · obtain ⟨e, hfind⟩ := (Update_grow_spec g head tl draws hs hb hfree hf).1 g1 rest hu
        have hmem := candidates_inBoard g (by rw [hw]; decide) (by rw [hh]; decide) draws _
          (List.mem_of_find?_eq_some hfind)
        have hfree0 := List.find?_some hfind
        have hfree1 : g1.Fruit ∉ newHead g.Direction head :: g.Snake := by
          rw [← overlaps_false_iff]
          simpa using hfree0
        rw [e]
        refine ⟨hw, hh, by simp, hnd2, ?_, hmem, hfree1, hd, ?_⟩
        · intro p hp
          rcases List.mem_cons.mp hp with rfl | hp
          · exact hb
          · exact hob p hp
        · show wrapInt64 (g.Score + 1) + 1 = ((g.Snake.length + 1 : Nat) : Int)
          rw [wrapInt64_eq (g.Score + 1) (by omega) (by omega), hsc]
          push_cast; rfl
      · rw [Update_move g head tl draws hs hb hfree hf] at hu
        simp only [Except.ok.injEq, Prod.mk.injEq] at hu
        obtain ⟨rfl, -⟩ := hu
        have hsub : ∀ p ∈ g.Snake.dropLast, p ∈ g.Snake := fun p hp =>
          (List.dropLast_sublist g.Snake).subset hp
        refine ⟨hw, hh, by simp, ?_, ?_, hfb, ?_, hd, ?_⟩
        · exact List.nodup_cons.mpr
            ⟨fun hm => hfree (hsub _ hm), hnd.sublist (List.dropLast_sublist _)⟩
        · intro p hp
          rcases List.mem_cons.mp hp with rfl | hp
          · exact hb
          · exact hob p (hsub p hp)
        · intro hm
          rcases List.mem_cons.mp hm with hm | hm
          · exact hf hm.symm
          · exact hff (hsub _ hm)
        · show g.Score + 1 = ((g.Snake.dropLast.length + 1 : Nat) : Int)
          rw [hsc, List.length_dropLast, hs]
          simp
    · rw [Update_self g head tl draws hs hb (not_not.mp hfree)] at hu
      simp only [Except.ok.injEq, Prod.mk.injEq] at hu
      obtain ⟨rfl, -⟩ := hu
      exact ⟨hw, hh, hne, hnd, hob, hfb, hff, hd, hsc⟩
  · rw [Update_wall g head tl draws hs hb] at hu
    simp only [Except.ok.injEq, Prod.mk.injEq] at hu
    obtain ⟨rfl, -⟩ := hu
    exact ⟨hw, hh, hne, hnd, hob, hfb, hff, hd, hsc⟩

theorem Inv_run (evs : List Event) : ∀ (g g1 : Game) (draws rest : List Nat), Inv g →
    run g draws evs = .ok (g1, rest) → Inv g1 := by
  induction evs with
  | nil =>
    intro g g1 draws rest h hr
    simp only [run, Except.ok.injEq, Prod.mk.injEq] at hr
    exact hr.1 ▸ h
  | cons ev evs ih =>
    intro g g1 draws rest h hr
    cases ev with
    | key c => exact ih _ _ _ _ (Inv_HandleInput g c h) hr
    | tick =>
      simp only [run] at hr
      cases hu : Update g draws with
      | error e => rw [hu] at hr; simp at hr
      | ok r =>
        obtain ⟨g2, rest2⟩ := r
        rw [hu] at hr
        exact ih _ _ _ _ (Inv_Update g g2 draws rest2 h hu) hr

theorem Inv_of_Reachable (g : Game) (h : Reachable g) : Inv g := by
  obtain ⟨g0, g1, draws, rest1, rest, evs, hi, hr⟩ := h
  exact Inv_run evs g1 g rest1 rest (Inv_Initialize g0 g1 draws rest1 hi) hr

/-- C2, as stated, fails at the largest `int`: with `Score = 2^63 - 1` and the
fruit right ahead, `Update` grows the snake and `Score++` wraps to `-2^63`,
which is not the old `Score` plus 1. -/
theorem score_wraps_at_max :
    Update gMaxScore [5, 7] =
      .ok ({ gMaxScore with Snake := [⟨31, 20⟩, ⟨30, 20⟩], Score := -9223372036854775808,
                            Fruit := ⟨5, 7⟩ }, []) ∧
    (-9223372036854775808 : Int) ≠ gMaxScore.Score + 1 :=
  ⟨by decide, by decide⟩

/-- C2, amended (growth law of `Update`): for a state with a non-empty snake,
if the new head is inside the board, on no snake cell and equal to `Fruit`,
then every result of `Update` has the old length plus 1 and the `Score` that
`Score++` gives: the old `Score` plus exactly 1 when the old `Score` is a
64-bit `int` below `2^63 - 1`, as it is in every reachable state; and `Update`
returns as soon as the draws hold a candidate off the grown snake.  In every
other case `Update` returns with length and `Score` unchanged. -/
theorem growth_law (g : Game) (head : Point) (tl : List Point) (draws : List Nat)
    (hs : g.Snake = head :: tl) :
    ((inBoard g (newHead g.Direction head) ∧ newHead g.Direction head ∉ g.Snake ∧
        newHead g.Direction head = g.Fruit) →
      (∀ g1 rest, Update g draws = .ok (g1, rest) →
        g1.Snake.length = g.Snake.length + 1 ∧ g1.Score = wrapInt64 (g.Score + 1) ∧
        (-9223372036854775808 ≤ g.Score → g.Score < 9223372036854775807 →
          g1.Score = g.Score + 1)) ∧
      ((∃ p ∈ candidates g.Width g.Height draws, p ∉ newHead g.Direction head :: g.Snake) →
        ∃ g1 rest, Update g draws = .ok (g1, rest))) ∧
    (¬ (inBoard g (newHead g.Direction head) ∧ newHead g.Direction head ∉ g.Snake ∧
        newHead g.Direction head = g.Fruit) →
      ∃ g1, Update g draws = .ok (g1, draws) ∧
        g1.Snake.length = g.Snake.length ∧ g1.Score = g.Score) ∧
    (Reachable g → -9223372036854775808 ≤ g.Score ∧ g.Score < 9223372036854775807) := by
  refine ⟨?_, ?_, ?_⟩
  · rintro ⟨hb, hfree, hf⟩
    obtain ⟨h1, h2⟩ := Update_grow_spec g head tl draws hs hb hfree hf
    refine ⟨?_, h2⟩
    intro g1 rest h
    obtain ⟨e, -⟩ := h1 g1 rest h
    have hsc : g1.Score = wrapInt64 (g.Score + 1) := by rw [e]
    refine ⟨by rw [e]; simp, hsc, ?_⟩
    intro hlo hhi
    rw [hsc, wrapInt64_eq (g.Score + 1) (by omega) (by omega)]
  · intro hn
    by_cases hb : inBoard g (newHead g.Direction head)
    · by_cases hfree : newHead g.Direction head ∉ g.Snake
      · have hf : newHead g.Direction head ≠ g.Fruit := fun hf => hn ⟨hb, hfree, hf⟩
        refine ⟨_, Update_move g head tl draws hs hb hfree hf, ?_, rfl⟩
        simp only [List.length_cons, List.length_dropLast]
        rw [hs]
        simp
      · exact ⟨_, Update_self g head tl draws hs hb (not_not.mp hfree), rfl, rfl⟩
    · exact ⟨_, Update_wall g head tl draws hs hb, rfl, rfl⟩
  · intro hr
    have hi := Inv_of_Reachable g hr
    have hlen := Inv_length_le g hi
    have hsc := hi.score
    constructor <;> omega

theorem growth_law_witness :
    (∃ g1, Update gStart [] = .ok (g1, []) ∧
      g1.Snake.length = gStart.Snake.length ∧ g1.Score = gStart.Score) ∧
    gTwo.Score = gFruitAhead.Score + 1 ∧
    (∃ g1 rest, Update gFruitAhead [31, 20, 3, 4] = .ok (g1, rest)) :=
  ⟨(growth_law gStart ⟨30, 20⟩ [] [] rfl).2.1 (by decide),
   (((growth_law gFruitAhead ⟨30, 20⟩ [] [5, 7] rfl).1 (by decide)).1 gTwo []
     (by decide)).2.2 (by decide) (by decide),
   ((growth_law gFruitAhead ⟨30, 20⟩ [] [31, 20, 3, 4] rfl).1 (by decide)).2
     ⟨⟨3, 4⟩, by decide, by decide⟩⟩

/-- A run in which the first fruit is spawned right ahead of the snake and is
eaten on the first tick: `Initialize`, a tick, a turn up, a tick. -/
theorem gGrown_reachable : Reachable gGrown :=
  ⟨zeroGame, gFruitAhead, [30, 20, 31, 20, 5, 7], [5, 7], [],
    [Event.tick, Event.key 'w', Event.tick], by decide, by decide⟩

/-- C1 (snake invariant): in every state reachable from `Initialize` by an
interleaving of key events and ticks, the points of `Snake` are pairwise
distinct and each of them, the head included, lies in `[0,Width) × [0,Height)`;
in particular this holds for the state any further `Update` returns with
`GameOver` false. -/
theorem snake_distinct_on_board (g : Game) (h : Reachable g) :
    (g.Snake.Nodup ∧ ∀ p ∈ g.Snake, inBoard g p) ∧
    (∀ draws g1 rest, Update g draws = .ok (g1, rest) → g1.GameOver = false →
      g1.Snake.Nodup ∧ (∀ p ∈ g1.Snake, inBoard g1 p) ∧
        ∃ hd tl, g1.Snake = hd :: tl ∧ inBoard g1 hd) := by
  have hi := Inv_of_Reachable g h
  refine ⟨⟨hi.nodup, hi.onBoard⟩, ?_⟩
  intro draws g1 rest hu _
  have h1 := Inv_Update g g1 draws rest hi hu
  obtain ⟨hd, tl, hs⟩ := List.exists_cons_of_ne_nil h1.nonempty
  exact ⟨h1.nodup, h1.onBoard, hd, tl, hs, h1.onBoard hd (by rw [hs]; simp)⟩

theorem snake_distinct_on_board_witness :
    Reachable gGrown ∧ gGrown.Snake.Nodup ∧ ∀ p ∈ gGrown.Snake, inBoard gGrown p :=
  ⟨gGrown_reachable, (snake_distinct_on_board gGrown gGrown_reachable).1⟩

/-- C8 (fruit off the snake): in every state reachable from `Initialize` by an
interleaving of key events and ticks, for any draws on which the fruit spawns
return, `Fruit` is inside the board and is no point of `Snake`. -/
theorem fruit_off_snake (g : Game) (h : Reachable g) :
    inBoard g g.Fruit ∧ g.Fruit ∉ g.Snake :=
  ⟨(Inv_of_Reachable g h).fruitOnBoard, (Inv_of_Reachable g h).fruitFree⟩

theorem fruit_off_snake_witness :
    Reachable gGrown ∧ inBoard gGrown gGrown.Fruit ∧ gGrown.Fruit ∉ gGrown.Snake :=
  ⟨gGrown_reachable, fruit_off_snake gGrown gGrown_reachable⟩

/-! ## Game over, and the safety of `Update` on reachable states -/

/-- Whatever the board, `SpawnFruit` writes `Fruit` only. -/
theorem SpawnFruit_frame (g : Game) : ∀ draws g1 rest, SpawnFruit g draws = .ok (g1, rest) →
    g1 = { g with Fruit := g1.Fruit } := by
  intro draws
  induction draws using draws_induction with
  | h0 => intro g1 rest h; simp only [SpawnFruit] at h; split_ifs at h
  | h1 a => intro g1 rest h; simp only [SpawnFruit] at h; split_ifs at h
  | h2 a b l ih =>
    intro g1 rest h
    simp only [SpawnFruit] at h
    split_ifs at h with h1 h2 h3
    · exact ih g1 rest h
    · simp only [Except.ok.injEq, Prod.mk.injEq] at h
      obtain ⟨rfl, -⟩ := h
      rfl

/-- On a board with positive sides `SpawnFruit` does not panic. -/
theorem SpawnFruit_no_panic (g : Game) (hw : 0 < g.Width) (hh : 0 < g.Height) :
    ∀ draws, SpawnFruit g draws ≠ .error .panic := by
  intro draws
  induction draws using draws_induction with
  | h0 => simp [SpawnFruit, not_le.mpr hw]
  | h1 a => simp [SpawnFruit, not_le.mpr hw, not_le.mpr hh]
  | h2 a b l ih =>
    simp only [SpawnFruit, not_le.mpr hw, not_le.mpr hh, if_false]
    split_ifs
    · exact ih
    · simp

theorem set_GameOver_eq (g : Game) (hgo : g.GameOver = true) :
    ({ g with GameOver := true } : Game) = g := by
  obtain ⟨W, H, S, D, F, Sc, GO⟩ := g
  simp only at hgo
  subst hgo
  rfl

/-- What `Update` never touches: `Width`, `Height` and `Direction`; and it
never clears `GameOver`. -/
theorem Update_keeps (g g1 : Game) (draws rest : List Nat)
    (hu : Update g draws = .ok (g1, rest)) :
    g1.Width = g.Width ∧ g1.Height = g.Height ∧ g1.Direction = g.Direction ∧
    (g.GameOver = true → g1.GameOver = true) := by
  cases hs : g.Snake with
  | nil =>
    obtain ⟨W, H, S, D, F, Sc, GO⟩ := g
    simp only at hs
    subst hs
    simp [Update] at hu
  | cons head tl =>
    by_cases hb : inBoard g (newHead g.Direction head)
    · by_cases hfree : newHead g.Direction head ∉ g.Snake
      · by_cases hf : newHead g.Direction head = g.Fruit
        · rw [Update_grow g head tl draws hs hb hfree hf] at hu
          rw [SpawnFruit_frame _ draws g1 rest hu]
          exact ⟨rfl, rfl, rfl, fun h => h⟩
        · rw [Update_move g head tl draws hs hb hfree hf] at hu
          simp only [Except.ok.injEq, Prod.mk.injEq] at hu
          obtain ⟨rfl, -⟩ := hu
          exact ⟨rfl, rfl, rfl, fun h => h⟩
      · rw [Update_self g head tl draws hs hb (not_not.mp hfree)] at hu
        simp only [Except.ok.injEq, Prod.mk.injEq] at hu
        obtain ⟨rfl, -⟩ := hu
        exact ⟨rfl, rfl, rfl, fun _ => rfl⟩
    · rw [Update_wall g head tl draws hs hb] at hu
      simp only [Except.ok.injEq, Prod.mk.injEq] at hu
      obtain ⟨rfl, -⟩ := hu
      exact ⟨rfl, rfl, rfl, fun _ => rfl⟩

theorem HandleInput_GameOver (g : Game) (c : Char) (hgo : g.GameOver = true) :
    (HandleInput g c).GameOver = true := by
  unfold HandleInput
  split_ifs <;> first | exact hgo | rfl

theorem run_GameOver (evs : List Event) : ∀ (g g1 : Game) (draws rest : List Nat),
    g.GameOver = true → run g draws evs = .ok (g1, rest) → g1.GameOver = true := by
  induction evs with
  | nil =>
    intro g g1 draws rest h hr
    simp only [run, Except.ok.injEq, Prod.mk.injEq] at hr
    exact hr.1 ▸ h
  | cons ev evs ih =>
    intro g g1 draws rest h hr
    cases ev with
    | key c => exact ih _ _ _ _ (HandleInput_GameOver g c h) hr
    | tick =>
      simp only [run] at hr
      cases hu : Update g draws with
      | error e => rw [hu] at hr; simp at hr
      | ok r =>
        obtain ⟨g2, rest2⟩ := r
        rw [hu] at hr
        exact ih _ _ _ _ ((Update_keeps g g2 draws rest2 hu).2.2.2 h) hr

/-- C11 (`GameOver` is monotonic): from a state with `GameOver` true, no result
of `Update`, of `HandleInput` on any key, of `SpawnFruit`, or of any further run
of key events and ticks has `GameOver` false. -/
theorem GameOver_monotonic (g : Game) (hgo : g.GameOver = true) :
    (∀ draws g1 rest, Update g draws = .ok (g1, rest) → g1.GameOver = true) ∧
    (∀ c, (HandleInput g c).GameOver = true) ∧
    (∀ draws g1 rest, SpawnFruit g draws = .ok (g1, rest) → g1.GameOver = true) ∧
    (∀ evs draws g1 rest, run g draws evs = .ok (g1, rest) → g1.GameOver = true) := by
  refine ⟨?_, ?_, ?_, ?_⟩
  · intro draws g1 rest hu
    exact (Update_keeps g g1 draws rest hu).2.2.2 hgo
  · intro c
    exact HandleInput_GameOver g c hgo
  · intro draws g1 rest hsp
    rw [SpawnFruit_frame g draws g1 rest hsp]
    exact hgo
  · intro evs draws g1 rest hr
    exact run_GameOver evs g g1 draws rest hgo hr

theorem GameOver_monotonic_witness :
    gQuit.GameOver = true ∧ (HandleInput gQuit 'w').GameOver = true ∧
    ({ gQuit with Snake := [⟨31, 19⟩], Direction := "UP" } : Game).GameOver = true :=
  ⟨rfl, (GameOver_monotonic gQuit rfl).2.1 'w',
   (GameOver_monotonic gQuit rfl).2.2.2 [Event.tick, Event.key 'w', Event.tick] [] _ []
     (by decide)⟩

theorem gQuit_reachable : Reachable gQuit :=
  ⟨zeroGame, gStart, [30, 20, 5, 7], [], [], [Event.key 'q'], by decide, by decide⟩

/-- C12, as stated, fails: `Update` has no test of `GameOver`.  In the reachable
state after the quit key, with `GameOver` true, `Update` still moves the snake
from `(30,20)` to `(31,20)`. -/
theorem Update_moves_after_quit :
    Reachable gQuit ∧ gQuit.GameOver = true ∧
    Update gQuit [] = .ok ({ gQuit with Snake := [⟨31, 20⟩] }, []) ∧
    ({ gQuit with Snake := [⟨31, 20⟩] } : Game) ≠ gQuit :=
  ⟨gQuit_reachable, rfl, by decide, by decide⟩

/-- C12, amended: `Update` has no test of `GameOver`.  For a state whose
`GameOver` flag is already true, `Update` leaves the whole state unchanged
when the new head is off the board or on a snake cell; in particular a state
in which `Update` itself has just set the flag, by a collision, is left
unchanged by every further `Update`.  In every case `Update` keeps `GameOver`
true and `Direction`, `Width`, `Height` unchanged. -/
theorem Update_after_game_over (g : Game) (head : Point) (tl : List Point) (draws : List Nat)
    (hs : g.Snake = head :: tl) (hgo : g.GameOver = true) :
    ((¬ inBoard g (newHead g.Direction head) ∨ newHead g.Direction head ∈ g.Snake) →
      Update g draws = .ok (g, draws)) ∧
    (∀ g0 draws0 rest0, g0.GameOver = false → Update g0 draws0 = .ok (g, rest0) →
      Update g draws = .ok (g, draws)) ∧
    (∀ g1 rest, Update g draws = .ok (g1, rest) →
      g1.GameOver = true ∧ g1.Direction = g.Direction ∧ g1.Width = g.Width ∧
      g1.Height = g.Height) := by
  have hcol : (¬ inBoard g (newHead g.Direction head) ∨ newHead g.Direction head ∈ g.Snake) →
      Update g draws = .ok (g, draws) := by
    intro h
    by_cases hb : inBoard g (newHead g.Direction head)
    · rw [Update_self g head tl draws hs hb (h.resolve_left (not_not.mpr hb)),
        set_GameOver_eq g hgo]
    · rw [Update_wall g head tl draws hs hb, set_GameOver_eq g hgo]
  refine ⟨hcol, ?_, ?_⟩
  · intro g0 draws0 rest0 h0 hu
    cases hs0 : g0.Snake with
    | nil =>
      obtain ⟨W, H, S, D, F, Sc, GO⟩ := g0
      simp only at hs0
      subst hs0
      simp [Update] at hu
    | cons head0 tl0 =>
      by_cases hb : inBoard g0 (newHead g0.Direction head0)
      · by_cases hfree : newHead g0.Direction head0 ∉ g0.Snake
        · have hgo0 : g.GameOver = g0.GameOver := by
            by_cases hf : newHead g0.Direction head0 = g0.Fruit
            · rw [Update_grow g0 head0 tl0 draws0 hs0 hb hfree hf] at hu
              rw [SpawnFruit_frame _ draws0 g rest0 hu]
            · rw [Update_move g0 head0 tl0 draws0 hs0 hb hfree hf] at hu
              simp only [Except.ok.injEq, Prod.mk.injEq] at hu
              rw [← hu.1]
          rw [hgo0, h0] at hgo
          exact absurd hgo (by decide)
        · rw [Update_self g0 head0 tl0 draws0 hs0 hb (not_not.mp hfree)] at hu
          simp only [Except.ok.injEq, Prod.mk.injEq] at hu
          have hsn : g.Snake = g0.Snake := by rw [← hu.1]
          have hdir : g.Direction = g0.Direction := by rw [← hu.1]
          have hhead : head = head0 := by
            have := hs.symm.trans (hsn.trans hs0)
            exact (List.cons.inj this).1
          apply hcol
          right
          rw [hdir, hhead, hsn]
          exact not_not.mp hfree
      · rw [Update_wall g0 head0 tl0 draws0 hs0 hb] at hu
        simp only [Except.ok.injEq, Prod.mk.injEq] at hu
        have hsn : g.Snake = g0.Snake := by rw [← hu.1]
        have hdir : g.Direction = g0.Direction := by rw [← hu.1]
        have hwd : g.Width = g0.Width := by rw [← hu.1]
        have hht : g.Height = g0.Height := by rw [← hu.1]
        have hhead : head = head0 := by
          have := hs.symm.trans (hsn.trans hs0)
          exact (List.cons.inj this).1
        apply hcol
        left
        rw [hdir, hhead]
        intro hin
        apply hb
        unfold inBoard at hin ⊢
        rw [hwd, hht] at hin
        exact hin
  · intro g1 rest hu
    obtain ⟨h1, h2, h3, h4⟩ := Update_keeps g g1 draws rest hu
    exact ⟨h4 hgo, h3, h1, h2⟩

theorem Update_after_game_over_witness :
    Update { gAtWall with GameOver := true } [] = .ok ({ gAtWall with GameOver := true }, []) ∧
    Update { gTurnedBack with GameOver := true } [7] =
      .ok ({ gTurnedBack with GameOver := true }, [7]) :=
  ⟨(Update_after_game_over { gAtWall with GameOver := true } ⟨59, 20⟩ [] [] rfl rfl).1
      (Or.inl (by decide)),
   (Update_after_game_over { gTurnedBack with GameOver := true } ⟨30, 20⟩
      [⟨29, 20⟩, ⟨28, 20⟩] [7] rfl rfl).2.1 gTurnedBack [] [] rfl (by decide)⟩

/-- C18 (score tracks length): in every state reachable from `Initialize` by an
interleaving of key events and ticks, `Score = len(Snake) - 1` and `Score ≥ 0`. -/
theorem score_tracks_length (g : Game) (h : Reachable g) :
    g.Score = (g.Snake.length : Int) - 1 ∧ 0 ≤ g.Score := by
  have hi := Inv_of_Reachable g h
  have hlen : 0 < g.Snake.length := List.length_pos.mpr hi.nonempty
  have hsc := hi.score
  constructor <;> omega

theorem score_tracks_length_witness :
    Reachable gGrown ∧ gGrown.Score = (gGrown.Snake.length : Int) - 1 ∧ 0 ≤ gGrown.Score :=
  ⟨gGrown_reachable, score_tracks_length gGrown gGrown_reachable⟩

theorem gTwo_reachable : Reachable gTwo :=
  ⟨zeroGame, gFruitAhead, [30, 20, 31, 20, 5, 7], [5, 7], [], [Event.tick],
    by decide, by decide⟩

/-- C19 (the reversal guard is per key event): the state `gTwo`, a snake of
length 2 with `GameOver` false, is reached from `Initialize` by a tick in
direction RIGHT.  The keys `w` and then `a`, neither the opposite of the
direction current when it is processed, are both accepted, and the next
`Update` moves the head onto the second segment `(30,20)` and sets `GameOver`. -/
theorem reversal_guard_per_key :
    Reachable gTwo ∧ gTwo.GameOver = false ∧ gTwo.Snake = [⟨31, 20⟩, ⟨30, 20⟩] ∧
    gFruitAhead.Direction = "RIGHT" ∧ run gFruitAhead [5, 7] [Event.tick] = .ok (gTwo, []) ∧
    specOpposite gTwo.Direction ≠ specCandidate 'w' ∧
    (HandleInput gTwo 'w').Direction = "UP" ∧
    specOpposite (HandleInput gTwo 'w').Direction ≠ specCandidate 'a' ∧
    (HandleInput (HandleInput gTwo 'w') 'a').Direction = "LEFT" ∧
    newHead (HandleInput (HandleInput gTwo 'w') 'a').Direction ⟨31, 20⟩ = ⟨30, 20⟩ ∧
    Update (HandleInput (HandleInput gTwo 'w') 'a') [] =
      .ok ({ gTwo with Direction := "LEFT", GameOver := true }, []) ∧
    run gTwo [] [Event.key 'w', Event.key 'a', Event.tick] =
      .ok ({ gTwo with Direction := "LEFT", GameOver := true }, []) :=
  ⟨gTwo_reachable, rfl, rfl, rfl, by decide, by decide, by decide, by decide, by decide,
    by decide, by decide, by decide⟩

/-- C20 (`Update` is safe on reachable states): in every state reachable from
`Initialize` by an interleaving of key events and ticks, `Snake` is non-empty
and `Direction` is one of UP, DOWN, LEFT, RIGHT; so `Update` never panics on
it, whatever the draws, and the new head is the head moved by one cell, a case
of the direction switch being selected. -/
theorem Update_safe (g : Game) (h : Reachable g) :
    g.Snake ≠ [] ∧ g.Direction ∈ ["UP", "DOWN", "LEFT", "RIGHT"] ∧
    (∀ draws, Update g draws ≠ .error .panic) ∧
    (∃ head tl, g.Snake = head :: tl ∧
      (newHead g.Direction head = ⟨head.X, head.Y - 1⟩ ∨
       newHead g.Direction head = ⟨head.X, head.Y + 1⟩ ∨
       newHead g.Direction head = ⟨head.X - 1, head.Y⟩ ∨
       newHead g.Direction head = ⟨head.X + 1, head.Y⟩)) := by
  have hi := Inv_of_Reachable g h
  obtain ⟨head, tl, hs⟩ := List.exists_cons_of_ne_nil hi.nonempty
  refine ⟨hi.nonempty, hi.direction, ?_, head, tl, hs, ?_⟩
  · intro draws
    by_cases hb : inBoard g (newHead g.Direction head)
    · by_cases hfree : newHead g.Direction head ∉ g.Snake
      · by_cases hf : newHead g.Direction head = g.Fruit
        · rw [Update_grow g head tl draws hs hb hfree hf]
          exact SpawnFruit_no_panic _ (by show 0 < g.Width; rw [hi.width]; decide)
            (by show 0 < g.Height; rw [hi.height]; decide) draws
        · rw [Update_move g head tl draws hs hb hfree hf]; simp
      · rw [Update_self g head tl draws hs hb (not_not.mp hfree)]; simp
    · rw [Update_wall g head tl draws hs hb]; simp
  · have hd := hi.direction
    simp only [List.mem_cons, List.mem_singleton, List.not_mem_nil, or_false] at hd
    rcases hd with hd | hd | hd | hd <;> rw [hd] <;> simp [newHead]

theorem Update_safe_witness :
    Reachable gGrown ∧ gGrown.Snake ≠ [] ∧ Update gGrown [] ≠ .error .panic :=
  ⟨gGrown_reachable, (Update_safe gGrown gGrown_reachable).1,
    (Update_safe gGrown gGrown_reachable).2.2.1 []⟩

/-! ## The input decoder -/

theorem fill0_b0 (buf : Buf) (b : UInt8) (more : List UInt8) :
    (fill0 buf (b :: more)).b0 = b := by
  match more with
  | [] => rfl
  | [_] => rfl
  | _ :: _ :: _ => rfl

theorem min_length_cons_ne_zero (b : UInt8) (more : List UInt8) :
    ¬ min (b :: more).length 3 = 0 := by
  simp only [List.length_cons]; omega

/-- A read whose first byte is not the escape byte sends that byte, and
nothing else, to `InputBuffer`; the buffer is not reset. -/
theorem ReadInput_plain (buf : Buf) (b : UInt8) (more : List UInt8) (rest : List ReadResult)
    (hb : b ≠ 0x1b) :
    ReadInput buf (.ok (b :: more) :: rest) =
      Char.ofNat b.toNat :: ReadInput (fill0 buf (b :: more)) rest := by
  rw [ReadInput, if_neg (min_length_cons_ne_zero b more)]
  simp only [fill0_b0, if_neg hb]

/-- A rune made from a byte has the value of that byte. -/
theorem byte_rune_value (b : UInt8) : (Char.ofNat b.toNat).toNat = b.toNat := by
  have hlt : b.toNat < 256 := b.val.isLt
  have hv : b.toNat.isValidChar := Or.inl (by omega)
  simp [Char.ofNat, hv, Char.toNat, Char.ofNatAux, UInt32.toNat]

/-- A lone escape byte whose follow-up read fails, or returns fewer than two
bytes, sends nothing: the loop goes on with the next read. -/
theorem ReadInput_lone_escape (buf : Buf) (rest : List ReadResult) :
    ReadInput buf (.ok [0x1b] :: .err :: rest) = ReadInput { buf with b0 := 0x1b } rest ∧
    ReadInput buf (.ok [0x1b] :: .ok [] :: rest) = ReadInput { buf with b0 := 0x1b } rest ∧
    (∀ x, ReadInput buf (.ok [0x1b] :: .ok [x] :: rest) =
      ReadInput { buf with b0 := 0x1b, b1 := x } rest) := by
  refine ⟨?_, ?_, ?_⟩
  · rw [ReadInput]; simp [fill0]
  · rw [ReadInput]; simp [fill0, fill1]
  · intro x; rw [ReadInput]; simp [fill0, fill1]

/-- The escape byte, `[` and a final letter in one read, or the escape byte
alone and the other two in the follow-up read, send the arrow and nothing else. -/
theorem ReadInput_arrow (buf : Buf) (rest : List ReadResult) (L : UInt8) (arrow : Char)
    (hL : specArrow L = some arrow) :
    ReadInput buf (.ok [0x1b, 0x5b, L] :: rest) = arrow :: ReadInput zeroBuf rest ∧
    ReadInput buf (.ok [0x1b] :: .ok [0x5b, L] :: rest) = arrow :: ReadInput zeroBuf rest := by
  unfold specArrow at hL
  split_ifs at hL with h1 h2 h3 h4 <;> subst_vars <;>
    simp only [Option.some.injEq] at hL <;> subst hL <;>
    constructor <;> rw [ReadInput] <;> simp [fill0, fill1, decodeArrow]

theorem specArrow_ne_escape (L : UInt8) (arrow : Char) (hL : specArrow L = some arrow) :
    L ≠ 0x1b := by
  rintro rfl
  simp [specArrow] at hL

/-- C13, as stated, fails: when the bytes `0x1B`, `0x5B`, `0x41` arrive one per
read, the follow-up read after the escape byte returns one byte, not two, the
attempt is dropped, and the final letter is then sent as the plain character
`A`; no UP arrow is sent. -/
theorem escape_one_byte_per_read :
    ReadInput zeroBuf [.ok [0x1b], .ok [0x5b], .ok [0x41]] = ['A'] ∧
    ReadInput zeroBuf [.ok [0x1b], .ok [0x5b], .ok [0x41]] ≠ ['↑'] :=
  ⟨by decide, by decide⟩

/-- C13, amended: for a final letter `L` among `A`, `B`, `C`, `D`, whatever the
buffer held before, when `0x1B`, `0x5B`, `L` arrive in one read, or `0x1B`
alone and then `0x5B`, `L` together in the follow-up read, the decoder sends
exactly one event for them, the arrow UP, DOWN, RIGHT, LEFT respectively, and
goes on with a fresh buffer; when they arrive one byte per read no arrow is
sent and `L` is sent as a plain character.  The bytes `0x1B 0x5B 0x41` in one
read give exactly one UP event. -/
theorem escape_decoding (buf : Buf) (rest : List ReadResult) (L : UInt8) (arrow : Char)
    (hL : specArrow L = some arrow) :
    ReadInput buf (.ok [0x1b, 0x5b, L] :: rest) = arrow :: ReadInput zeroBuf rest ∧
    ReadInput buf (.ok [0x1b] :: .ok [0x5b, L] :: rest) = arrow :: ReadInput zeroBuf rest ∧
    ReadInput buf (.ok [0x1b] :: .ok [0x5b] :: .ok [L] :: rest) =
      Char.ofNat L.toNat :: ReadInput { b0 := L, b1 := 0x5b, b2 := buf.b2 } rest ∧
    ReadInput zeroBuf [.ok [0x1b, 0x5b, 0x41]] = ['↑'] := by
  refine ⟨(ReadInput_arrow buf rest L arrow hL).1, (ReadInput_arrow buf rest L arrow hL).2,
    ?_, by decide⟩
  rw [(ReadInput_lone_escape buf (.ok [L] :: rest)).2.2 0x5b,
    ReadInput_plain _ L [] rest (specArrow_ne_escape L arrow hL)]
  rfl

theorem escape_decoding_witness :
    ReadInput zeroBuf [.ok [0x1b, 0x5b, 0x42], .ok [0x1b], .ok [0x5b, 0x44]] = ['↓', '←'] := by
  rw [(escape_decoding zeroBuf [.ok [0x1b], .ok [0x5b, 0x44]] 0x42 '↓' (by decide)).1,
    (escape_decoding zeroBuf [] 0x44 '←' (by decide)).2.1]
  rfl

/-- C14 on the failing input: after a read of the three bytes `x`, `y`, `A`
the buffer still holds `A` at index 2; a read of the two bytes `0x1B`, `0x5B`
then sends an UP arrow made from that stale byte, although no further byte was
obtained.  On a fresh buffer the same read sends nothing. -/
theorem stale_byte_decoded :
    ReadInput zeroBuf [.ok [0x78, 0x79, 0x41], .ok [0x1b, 0x5b]] = ['x', '↑'] ∧
    ReadInput { b0 := 0x78, b1 := 0x79, b2 := 0x41 } [.ok [0x1b, 0x5b]] = ['↑'] ∧
    ReadInput zeroBuf [.ok [0x1b, 0x5b]] = [] :=
  ⟨by decide, by decide, by decide⟩

/-- C15, as stated, fails: a read returning the two bytes `w`, `d` sends the
single event `w`; the second byte is dropped. -/
theorem second_byte_dropped :
    ReadInput zeroBuf [.ok [0x77, 0x64]] = ['w'] ∧
    ReadInput zeroBuf [.ok [0x77, 0x64]] ≠ ['w', 'd'] :=
  ⟨by decide, by decide⟩

/-- C15, amended: for a successful read whose first byte is not the escape
byte, whatever the buffer held before, the decoder sends exactly one character
event for the read, carrying the value of the first byte unchanged, and goes
on with the next read; further bytes of the read stay in the buffer and are
not sent (a read returning `w`, `d` yields the event `w` only). -/
theorem first_byte_verbatim (buf : Buf) (b : UInt8) (more : List UInt8)
    (rest : List ReadResult) (hb : b ≠ 0x1b) :
    ReadInput buf (.ok (b :: more) :: rest) =
      Char.ofNat b.toNat :: ReadInput (fill0 buf (b :: more)) rest ∧
    (Char.ofNat b.toNat).toNat = b.toNat ∧
    ReadInput zeroBuf [.ok [0x77, 0x64]] = ['w'] :=
  ⟨ReadInput_plain buf b more rest hb, byte_rune_value b, by decide⟩

theorem first_byte_verbatim_witness :
    ReadInput zeroBuf [.ok [0x77, 0x64], .ok [0x71]] =
      'w' :: ReadInput (fill0 zeroBuf [0x77, 0x64]) [.ok [0x71]] :=
  (first_byte_verbatim zeroBuf 0x77 [0x64] [.ok [0x71]] (by decide)).1

/-! ## The renderer -/

/-- C17 (idempotent rendering): `Draw` returns the state unchanged; the text it
emits is the same for two states with equal `Width`, `Height`, `Snake`, `Fruit`
and `Score`; hence drawing twice gives the same text, and changing `Direction`
or `GameOver` does not change the text. -/
theorem Draw_idempotent (g g2 : Game) :
    (Draw g).1 = g ∧
    (g.Width = g2.Width → g.Height = g2.Height → g.Snake = g2.Snake → g.Fruit = g2.Fruit →
      g.Score = g2.Score → (Draw g).2 = (Draw g2).2) ∧
    (Draw (Draw g).1).2 = (Draw g).2 ∧
    (∀ d go, (Draw { g with Direction := d, GameOver := go }).2 = (Draw g).2) := by
  refine ⟨rfl, ?_, rfl, fun _ _ => rfl⟩
  intro hw hh hs hf hsc
  obtain ⟨W, H, S, D, F, Sc, GO⟩ := g
  obtain ⟨W2, H2, S2, D2, F2, Sc2, GO2⟩ := g2
  simp only at hw hh hs hf hsc
  subst hw hh hs hf hsc
  rfl

theorem Draw_idempotent_witness :
    (Draw gTwo).1 = gTwo ∧ (Draw gStart).2 = (Draw gQuit).2 :=
  ⟨(Draw_idempotent gTwo gTwo).1, (Draw_idempotent gStart gQuit).2.1 rfl rfl rfl rfl rfl⟩

theorem foldl_append_eq {α : Type} (f : α → String) (l : List α) :
    ∀ out : String, l.foldl (fun o a => o ++ f a) out = out ++ joinAll (l.map f) := by
  induction l with
  | nil => intro out; simp [joinAll]
  | cons a l ih =>
    intro out
    simp only [List.foldl_cons, List.map_cons, joinAll]
    rw [ih, String.append_assoc]

theorem joinAll_bars (n : Nat) : joinAll (List.replicate n "──") = specBars (2 * n) := by
  induction n with
  | zero => rfl
  | succ n ih =>
    rw [List.replicate_succ, joinAll, ih]
    apply String.ext
    simp only [specBars, String.data_append]
    rw [show 2 * (n + 1) = (2 * n + 1) + 1 by ring, List.replicate_succ, List.replicate_succ]
    rfl

theorem bars_loop (n : Nat) (out : String) :
    (List.range n).foldl (fun o _ => o ++ "──") out = out ++ specBars (2 * n) := by
  rw [foldl_append_eq (fun _ => "──"), List.map_const', List.length_range, joinAll_bars]

/-- Past index 0 the loop over the snake writes the body glyph exactly when
some element is on the cell. -/
theorem snakeGlyph_succ (x y : Int) (cell : String) :
    ∀ (l : List Point) (i : Nat), snakeGlyph x y l (i + 1) cell =
      if (⟨x, y⟩ : Point) ∈ l then "🟩" else cell := by
  intro l
  induction l with
  | nil => intro i; simp [snakeGlyph]
  | cons s l ih =>
    intro i
    rw [snakeGlyph, ih]
    by_cases h : s.X = x ∧ s.Y = y
    · have hs : s = ⟨x, y⟩ := (point_eq_iff s ⟨x, y⟩).mp h
      simp [h, hs]
    · have hs : ¬ (⟨x, y⟩ : Point) = s := fun e => h ((point_eq_iff s ⟨x, y⟩).mpr e.symm)
      simp [h, hs]

/-- The cell written by `Draw` follows the precedence rule of the spec. -/
theorem drawCell_eq_specCell (g : Game) (x y : Int) : drawCell g x y = specCell g x y := by
  unfold drawCell specCell
  by_cases hf : g.Fruit.X = x ∧ g.Fruit.Y = y
  · have hf2 : g.Fruit = ⟨x, y⟩ := (point_eq_iff g.Fruit ⟨x, y⟩).mp hf
    rw [if_pos hf, if_pos hf2]
  · have hf2 : ¬ g.Fruit = ⟨x, y⟩ := fun e => hf ((point_eq_iff g.Fruit ⟨x, y⟩).mpr e)
    rw [if_neg hf, if_neg hf2]
    cases hs : g.Snake with
    | nil => simp [snakeGlyph]
    | cons s l =>
      rw [snakeGlyph, snakeGlyph_succ]
      by_cases h : s.X = x ∧ s.Y = y
      · have hs : s = ⟨x, y⟩ := (point_eq_iff s ⟨x, y⟩).mp h
        simp [h, hs]
      · have hs : ¬ s = ⟨x, y⟩ := fun e => h ((point_eq_iff s ⟨x, y⟩).mpr e)
        simp [h, hs]

theorem row_loop (g : Game) (y : Nat) (out : String) :
    (List.range g.Width.toNat).foldl (fun o (x : Nat) => o ++ drawCell g x y) (out ++ "\r│")
        ++ "│\n\r" =
      out ++ ("\r│" ++ joinAll (specCells g y) ++ "│\n\r") := by
  rw [foldl_append_eq (fun x : Nat => drawCell g x y)]
  have : (List.range g.Width.toNat).map (fun x : Nat => drawCell g x y) = specCells g y := by
    unfold specCells
    exact List.map_congr_left (fun x _ => drawCell_eq_specCell g x y)
  rw [this]
  simp only [String.append_assoc]

/-- The text built by `Draw` is the clear-screen sequence followed by the
frame described by the spec. -/
theorem Draw_eq_specFrame (g : Game) : (Draw g).2 = "\x1b[2J\x1b[H" ++ specFrame g := by
  unfold Draw specFrame
  simp only [bars_loop, row_loop]
  rw [foldl_append_eq (fun y : Nat => "\r│" ++ joinAll (specCells g y) ++ "│\n\r")]
  simp only [specRows, String.append_assoc, String.empty_append]

/-- C16 (frame built by `Draw`): for a state with `Width, Height ≥ 0` the text
is the clear-screen sequence followed by a top border with `2 * Width`
horizontal bars, exactly `Height` grid rows, each a left border, exactly
`Width` cells and a right border, a bottom border and the line `Score: <Score>`;
the cell at column `x` of row `y` is the fruit glyph if `Fruit = (x,y)`,
otherwise the head glyph if the first snake element at `(x,y)` is the head,
otherwise the body glyph if a later element is at `(x,y)`, otherwise two blanks. -/
theorem Draw_frame (g : Game) (hw : 0 ≤ g.Width) (hh : 0 ≤ g.Height) :
    (Draw g).2 = "\x1b[2J\x1b[H" ++ specFrame g ∧
    ((specBars (2 * g.Width.toNat)).length : Int) = 2 * g.Width ∧
    ((specRows g).length : Int) = g.Height ∧
    (∀ y : Int, ((specCells g y).length : Int) = g.Width) ∧
    (∀ x : Nat, ∀ y : Int, (x : Int) < g.Width →
      (specCells g y)[x]? = some (specCell g x y)) ∧
    (∀ y : Nat, (y : Int) < g.Height →
      (specRows g)[y]? = some ("\r│" ++ joinAll (specCells g y) ++ "│\n\r")) ∧
    (∀ x y : Int, drawCell g x y = specCell g x y) := by
  refine ⟨Draw_eq_specFrame g, ?_, ?_, ?_, ?_, ?_, drawCell_eq_specCell g⟩
  · simp only [specBars, String.length, List.length_replicate]
    omega
  · simp only [specRows, List.length_map, List.length_range]
    omega
  · intro y
    simp only [specCells, List.length_map, List.length_range]
    omega
  · intro x y hx
    have hx2 : x < g.Width.toNat := by omega
    simp [specCells, List.getElem?_map, List.getElem?_range hx2]
  · intro y hy
    have hy2 : y < g.Height.toNat := by omega
    simp [specRows, List.getElem?_map, List.getElem?_range hy2]

theorem Draw_frame_witness :
    (Draw gTiny).2 =
      "\x1b[2J\x1b[H\r┌────┐\n\r│🟢🍎│\n\r\r└────┘\n\r\rScore: 0\n\r" :=
  (Draw_frame gTiny (by decide) (by decide)).1.trans (by decide)

end Snake
